import Mathlib


namespace LottoPipeline

/-!
Verification of the lotto-num-generator data-acquisition and caching pipeline.

This file gives a shallow embedding, in Lean 4, of the pipeline components of
the repository (record validator, retry executor, circuit breaker, three-tier
cache manager, range scraper) and proves, or refutes, the testable properties
stated for them.

Modelling conventions:
* JavaScript numbers are modelled as rationals (the checks performed by the
  code are Number.isInteger and order comparisons, both of which are exact on
  rationals; NaN and the infinities are outside the model).
* JavaScript truthiness on a generic cached value is modelled by an explicit
  predicate passed to the cache operations.
* Date parsing follows the JavaScript engine running in the KST time zone
  (UTC+9, no daylight saving), which the deployment assumes: the local
  calendar fields of the UTC-midnight instant produced by parsing a
  YYYY-MM-DD string coincide with the fields written in the string.
* Stores (the in-process Map, localStorage, the file cache) are modelled as
  functions from keys to optional entries; loops that scan all keys are
  modelled by their pointwise effect on such a function.
-/
/-! ## Record validator (src/lib/scraper/data-validator.ts) -/
/-- Model of the prize object carried by a candidate record.  Each of the ten
fields is `some q` when the field is present and is a JavaScript number with
value `q`, and `none` when the field is absent or not a number. -/
structure PrizeObj where
  first : Option ℚ
  firstWinners : Option ℚ
  second : Option ℚ
  secondWinners : Option ℚ
  third : Option ℚ
  thirdWinners : Option ℚ
  fourth : Option ℚ
  fourthWinners : Option ℚ
  fifth : Option ℚ
  fifthWinners : Option ℚ
  deriving DecidableEq

/-- Model of a raw candidate record handed to the validator.  A field is
`none` when it is absent or has the wrong runtime type (for that case every
check of the source returns false, see the notes on each helper). -/
structure RawResult where
  round : Option ℚ
  date : Option String
  numbers : Option (List ℚ)
  bonus : Option ℚ
  prize : Option PrizeObj
  deriving DecidableEq

/-- LotteryDataValidator.isValidNumber: Number.isInteger(num) and
1 <= num <= 45.  Integrality of a rational is denominator one. -/
def isValidNumber (num : ℚ) : Bool :=
  num.den == 1 && 1 ≤ num && num ≤ 45

/-- LotteryDataValidator.isValidNumberArray: exactly 6 entries, every entry a
valid number, and no duplicates (the source compares the size of a Set built
from the array with 6; `List.dedup` counts the distinct values). -/
def isValidNumberArray (numbers : List ℚ) : Bool :=
  numbers.length == 6 && numbers.all isValidNumber && numbers.dedup.length == 6

/-- Leap-year rule of the proleptic Gregorian calendar used by JavaScript
Date. -/
def isLeapYear (y : ℤ) : Bool :=
  (y % 4 == 0 && y % 100 != 0) || y % 400 == 0

/-- Number of days of month `m` of year `y` (months are 1-based here). -/
def daysInMonth (y m : ℤ) : ℤ :=
  if m == 2 then (if isLeapYear y then 29 else 28)
  else if m == 4 || m == 6 || m == 9 || m == 11 then 30
  else 31

/-- The test of the regular expression of isValidDate: ten characters, four
digits, a dash, two digits, a dash, two digits. -/
def dateRegexOk (s : String) : Bool :=
  match s.toList with
  | [y1, y2, y3, y4, h1, m1, m2, h2, d1, d2] =>
      y1.isDigit && y2.isDigit && y3.isDigit && y4.isDigit &&
      h1 == '-' && m1.isDigit && m2.isDigit &&
      h2 == '-' && d1.isDigit && d2.isDigit
  | _ => false

/-- Numeric value of a digit character. -/
def digitVal (c : Char) : ℤ :=
  (c.toNat : ℤ) - 48

/-- dateString.split(sep).map(Number) on a string matching the date regular
expression: the year, month (1-based) and day fields written in the string.
Returns (0, 0, 0) on strings of the wrong shape; all uses are guarded by
`dateRegexOk`. -/
def parseDateFields (s : String) : ℤ × ℤ × ℤ :=
  match s.toList with
  | [y1, y2, y3, y4, _, m1, m2, _, d1, d2] =>
      (1000 * digitVal y1 + 100 * digitVal y2 + 10 * digitVal y3 + digitVal y4,
       10 * digitVal m1 + digitVal m2,
       10 * digitVal d1 + digitVal d2)
  | _ => (0, 0, 0)

/-- Model of `new Date(s)` on a string matching the YYYY-MM-DD shape followed
by extraction of the local calendar fields.  The engine parses such a string
as an ISO date at UTC midnight; the result is an invalid date (all field
getters return NaN, modelled as `none`) unless the month is in [1, 12] and
the day is in [1, daysInMonth].  In the KST time zone the local fields of a
valid parse equal the written fields; getMonth is 0-based. -/
def jsDateFields (s : String) : Option (ℤ × ℤ × ℤ) :=
  let (y, m, d) := parseDateFields s
  if 1 ≤ m && m ≤ 12 && 1 ≤ d && d ≤ daysInMonth y m then
    some (y, m - 1, d)
  else
    none

/-- LotteryDataValidator.isValidDate: the regular expression matches and the
fields recovered from the parsed Date equal the fields written in the string
(getFullYear() === year, getMonth() === month - 1, getDate() === day). -/
def isValidDate (s : String) : Bool :=
  dateRegexOk s &&
    match jsDateFields s with
    | some (gy, gm, gd) =>
        gy == (parseDateFields s).1 &&
        gm == (parseDateFields s).2.1 - 1 &&
        gd == (parseDateFields s).2.2
    | none => false

/-- LotteryDataValidator.isValidRound: Number.isInteger(round) and
0 < round < 10000. -/
def isValidRound (round : ℚ) : Bool :=
  round.den == 1 && 0 < round && round < 10000

/-- One prize field check of isValidPrizeInfo: the field is present, is a
number, and is at least 0. -/
def prizeFieldOkB (f : Option ℚ) : Bool :=
  match f with
  | some v => 0 ≤ v
  | none => false

/-- LotteryDataValidator.isValidPrizeInfo: the argument is a non-null object
and each of the ten required fields is a number that is at least 0.  A
missing or non-number field is `none` in the model. -/
def isValidPrizeInfo (prize : Option PrizeObj) : Bool :=
  match prize with
  | none => false
  | some p =>
      [p.first, p.firstWinners, p.second, p.secondWinners,
       p.third, p.thirdWinners, p.fourth, p.fourthWinners,
       p.fifth, p.fifthWinners].all prizeFieldOkB

/-- LotteryDataValidator.validateLotteryResult: round, date, numbers and
bonus checks in source order, then the bonus-collision check, then the prize
check.  A field of the wrong runtime type makes the corresponding check of
the source return false (or throw, which the surrounding try/catch turns
into false); both are `none` cases here. -/
def validateLotteryResult (c : RawResult) : Bool :=
  (match c.round with
   | some r => isValidRound r
   | none => false) &&
  (match c.date with
   | some s => isValidDate s
   | none => false) &&
  (match c.numbers with
   | some ns => isValidNumberArray ns
   | none => false) &&
  (match c.bonus with
   | some b => isValidNumber b
   | none => false) &&
  (match c.numbers, c.bonus with
   | some ns, some b => !(ns.contains b)
   | _, _ => true) &&
  isValidPrizeInfo c.prize

/-- Sort key used by validateAndCleanResults: the round field.  The
comparator runs only on records that passed validation, whose round field is
present; `getD` supplies an irrelevant default for the others. -/
def roundKey (c : RawResult) : ℚ :=
  c.round.getD 0

/-- The comparator (a, b) => b.round - a.round of the source sorts in
descending round order; `sortDescRel a b` states that `a` may come before
`b`. -/
def sortDescRel (a b : RawResult) : Prop :=
  roundKey b ≤ roundKey a

instance : DecidableRel sortDescRel := fun a b =>
  inferInstanceAs (Decidable (roundKey b ≤ roundKey a))

instance : IsTotal RawResult sortDescRel :=
  ⟨fun a b => le_total (roundKey b) (roundKey a)⟩

instance : IsTrans RawResult sortDescRel :=
  ⟨fun _ _ _ h1 h2 => le_trans h2 h1⟩

/-- The duplicate-round filter of validateAndCleanResults:
results.filter((result, index, array) =>
  array.findIndex(r => r.round === result.round) === index).
An element is kept exactly when its index equals the first index holding its
round. -/
def dedupByRound (l : List RawResult) : List RawResult :=
  (l.enum.filter fun p =>
    l.findIdx (fun r2 => roundKey r2 == roundKey p.2) == p.1).map Prod.snd

/-- LotteryDataValidator.validateAndCleanResults: keep the records that pass
validateLotteryResult, sort them by round descending (Array.prototype.sort
is stable; insertionSort with `sortDescRel` computes the same list), then
drop every record whose round already occurred earlier. -/
def validateAndCleanResults (results : List RawResult) : List RawResult :=
  dedupByRound ((results.filter validateLotteryResult).insertionSort sortDescRel)

/-! ## The acceptance condition of claim C1, stated from the specification -/

/-- A rational that is a JavaScript integer. -/
def RatIsInt (q : ℚ) : Prop :=
  ∃ z : ℤ, q = (z : ℚ)

/-- The date requirement as the claim states it: the string matches
YYYY-MM-DD and round-trips through date parsing without field drift (the
parsed year, 0-based month and day equal the fields written in the
string). -/
def ClaimDateOk (s : String) : Prop :=
  dateRegexOk s = true ∧
    ∃ gy gm gd, jsDateFields s = some (gy, gm, gd) ∧
      gy = (parseDateFields s).1 ∧
      gm = (parseDateFields s).2.1 - 1 ∧
      gd = (parseDateFields s).2.2

/-- The prize requirement as the claim states it: all ten fields present,
numbers, non-negative. -/
def ClaimPrizeOk (p : PrizeObj) : Prop :=
  (∃ v, p.first = some v ∧ 0 ≤ v) ∧ (∃ v, p.firstWinners = some v ∧ 0 ≤ v) ∧
  (∃ v, p.second = some v ∧ 0 ≤ v) ∧ (∃ v, p.secondWinners = some v ∧ 0 ≤ v) ∧
  (∃ v, p.third = some v ∧ 0 ≤ v) ∧ (∃ v, p.thirdWinners = some v ∧ 0 ≤ v) ∧
  (∃ v, p.fourth = some v ∧ 0 ≤ v) ∧ (∃ v, p.fourthWinners = some v ∧ 0 ≤ v) ∧
  (∃ v, p.fifth = some v ∧ 0 ≤ v) ∧ (∃ v, p.fifthWinners = some v ∧ 0 ≤ v)

/-- Claim C1, spec side: the acceptance condition as the specification
states it. -/
def ClaimC1Accepts (c : RawResult) : Prop :=
  (∃ r, c.round = some r ∧ RatIsInt r ∧ 0 < r ∧ r < 10000) ∧
  (∃ s, c.date = some s ∧ ClaimDateOk s) ∧
  (∃ ns, c.numbers = some ns ∧ ns.length = 6 ∧ ns.Nodup ∧
    ∀ n ∈ ns, RatIsInt n ∧ 1 ≤ n ∧ n ≤ 45) ∧
  (∃ b ns, c.bonus = some b ∧ c.numbers = some ns ∧
    RatIsInt b ∧ 1 ≤ b ∧ b ≤ 45 ∧ b ∉ ns) ∧
  (∃ p, c.prize = some p ∧ ClaimPrizeOk p)

/-- The sorted intermediate list of validateAndCleanResults: the valid
records in newest-first (descending round) order, duplicates included. -/
def sortedValid (results : List RawResult) : List RawResult :=
  (results.filter validateLotteryResult).insertionSort sortDescRel

/-! ## Retry executor (src/lib/scraper/retry-logic.ts) -/

/-- RetryConfig of the source.  Delays are rationals of milliseconds. -/
structure RetryConfig where
  maxAttempts : ℕ
  baseDelay : ℚ
  maxDelay : ℚ
  backoffMultiplier : ℚ
  retryableErrors : List String

/-- DEFAULT_RETRY_CONFIG of the source. -/
def DEFAULT_RETRY_CONFIG : RetryConfig :=
  { maxAttempts := 3
    baseDelay := 1000
    maxDelay := 10000
    backoffMultiplier := 2
    retryableErrors :=
      ["timeout", "network", "ECONNRESET", "ENOTFOUND", "ETIMEDOUT",
       "navigation", "waiting for selector"] }

/-- SCRAPING_RETRY_CONFIG of the source. -/
def SCRAPING_RETRY_CONFIG : RetryConfig :=
  { maxAttempts := 5
    baseDelay := 2000
    maxDelay := 30000
    backoffMultiplier := 3 / 2
    retryableErrors :=
      ["timeout", "network", "navigation", "waiting for selector",
       "Protocol error", "Page crashed", "Target closed"] }

/-- Substring test on character lists: true when `pat` occurs contiguously
inside the second argument (the semantics of String.prototype.includes). -/
def hasSubstring (pat : List Char) : List Char → Bool
  | [] => List.isPrefixOf pat []
  | c :: t => List.isPrefixOf pat (c :: t) || hasSubstring pat t

/-- Lower-casing of a character list; String.toLower of the library is the
same map applied through String, expressed here on the character list. -/
def lowerChars (l : List Char) : List Char :=
  l.map Char.toLower

/-- isRetryableError of the source: some configured pattern occurs in the
message, both sides lower-cased. -/
def isRetryableError (msg : String) (retryableErrors : List String) : Bool :=
  retryableErrors.any fun pat =>
    hasSubstring (lowerChars pat.toList) (lowerChars msg.toList)

/-- calculateDelay of the source: exponential backoff capped at maxDelay. -/
def calculateDelay (attempt : ℕ) (config : RetryConfig) : ℚ :=
  min (config.baseDelay * config.backoffMultiplier ^ (attempt - 1))
    config.maxDelay

/-- The attempt loop of retryAsync.  The operation is modelled as a function
from the 1-based attempt index to the outcome of that invocation.  The
result carries the surfaced outcome together with the number of times the
operation was invoked.  The loop body follows the source: on success return
at once; on failure of the last attempt break out of the loop (the final
throw then surfaces that error); on a non-retryable failure rethrow
immediately; otherwise sleep and continue. -/
def retryLoop (op : ℕ → Except String α) (config : RetryConfig) :
    ℕ → Option String → Except String α × ℕ
  | attempt, lastError =>
    if config.maxAttempts < attempt then
      (.error (lastError.getD "Unknown error occurred"), 0)
    else
      match op attempt with
      | .ok v => (.ok v, 1)
      | .error e =>
        if attempt == config.maxAttempts then
          (.error e, 1)
        else if isRetryableError e config.retryableErrors then
          let p := retryLoop op config (attempt + 1) (some e)
          (p.1, p.2 + 1)
        else
          (.error e, 1)
  termination_by attempt _ => config.maxAttempts + 1 - attempt
  decreasing_by
    simp only [Nat.not_lt] at *
    omega

/-- retryAsync of the source: run the loop from attempt 1 with no recorded
error. -/
def retryAsync (op : ℕ → Except String α) (config : RetryConfig) :
    Except String α × ℕ :=
  retryLoop op config 1 none

/-- A concrete operation for the retry witnesses: a retryable failure on the
first invocation, success afterwards. -/
def witnessOp : ℕ → Except String ℕ
  | 1 => .error "Connection timeout while loading page"
  | _ => .ok 42

/-- A concrete operation for the non-retryable witness. -/
def witnessOpFatal : ℕ → Except String ℕ :=
  fun _ => .error "malformed payload"

/-! ## Circuit breaker (src/lib/scraper/retry-logic.ts, class CircuitBreaker) -/
/-- The three states of the breaker. -/
inductive CBState
  | CLOSED
  | OPEN
  | HALF_OPEN
  deriving DecidableEq

/-- Constructor parameters of the breaker. -/
structure CBConfig where
  failureThreshold : ℕ
  recoveryTimeout : ℤ

/-- The global scraping breaker of the source is new CircuitBreaker(3, 30000). -/
def scrapingCBConfig : CBConfig :=
  { failureThreshold := 3, recoveryTimeout := 30000 }

/-- Mutable fields of the breaker.  Instants are integers of milliseconds
(Date.now()). -/
structure CircuitBreaker where
  failures : ℕ
  lastFailureTime : ℤ
  state : CBState
  deriving DecidableEq

/-- The field initialisers of the class: failures 0, lastFailureTime 0,
state CLOSED. -/
def CircuitBreaker.init : CircuitBreaker :=
  { failures := 0, lastFailureTime := 0, state := .CLOSED }

/-- reset() of the source. -/
def CircuitBreaker.reset (_cb : CircuitBreaker) : CircuitBreaker :=
  { failures := 0, lastFailureTime := 0, state := .CLOSED }

/-- Observable outcome of one execute call. -/
inductive CBOutcome (α : Type)
  | ok (v : α)
  | opFailed (e : String)
  | circuitOpen
  deriving DecidableEq

/-- The OPEN guard at the top of execute: an OPEN breaker either moves to
HALF_OPEN (when the recovery timeout has elapsed) and lets the call proceed,
or blocks the call (`none`, the circuit-open throw); any other state lets
the call proceed unchanged. -/
def CircuitBreaker.openGuard (cfg : CBConfig) (cb : CircuitBreaker)
    (now : ℤ) : Option CircuitBreaker :=
  if cb.state = .OPEN then
    if cfg.recoveryTimeout < now - cb.lastFailureTime then
      some { cb with state := .HALF_OPEN }
    else
      none
  else
    some cb

/-- The part of execute after the OPEN guard: the operation is invoked on
the (possibly HALF_OPEN) state `cb1`. -/
def CircuitBreaker.invoke (cfg : CBConfig) (cb1 : CircuitBreaker)
    (now : ℤ) (op : Except String α) :
    CircuitBreaker × CBOutcome α × ℕ :=
  match op with
  | .ok v =>
    if cb1.state = .HALF_OPEN then
      ({ cb1 with state := .CLOSED, failures := 0 }, .ok v, 1)
    else
      (cb1, .ok v, 1)
  | .error e =>
    ({ failures := cb1.failures + 1
       lastFailureTime := now
       state := if cfg.failureThreshold ≤ cb1.failures + 1 then .OPEN
         else cb1.state },
     .opFailed e, 1)

/-- execute of the source, as one atomic step.  `now` is the value Date.now()
returns during the call and `op` the outcome the protected operation would
produce if invoked.  The returned natural number counts how many times the
operation was invoked (0 or 1).  The body follows the source: the OPEN
guard either moves to HALF_OPEN or throws the circuit-open error without
invoking the operation; then the operation runs; a success while HALF_OPEN
closes the breaker and clears the failure count, any other success changes
nothing; a failure increments the failure count, records the failure
instant, and opens the breaker when the count reaches the threshold. -/
def CircuitBreaker.executeStep (cfg : CBConfig) (cb : CircuitBreaker)
    (now : ℤ) (op : Except String α) :
    CircuitBreaker × CBOutcome α × ℕ :=
  match CircuitBreaker.openGuard cfg cb now with
  | none => (cb, .circuitOpen, 0)
  | some cb1 => CircuitBreaker.invoke cfg cb1 now op

/-- Run a sequence of execute calls, each given by the instant of the call
and the outcome the protected operation would produce. -/
def CircuitBreaker.run (cfg : CBConfig) :
    CircuitBreaker → List (ℤ × Except String Unit) → CircuitBreaker
  | cb, [] => cb
  | cb, c :: rest =>
      CircuitBreaker.run cfg (CircuitBreaker.executeStep cfg cb c.1 c.2).1 rest

/-- States reachable from a fresh breaker through execute and reset. -/
inductive CBReachable (cfg : CBConfig) : CircuitBreaker → Prop
  | init : CBReachable cfg CircuitBreaker.init
  | step {cb : CircuitBreaker} (now : ℤ) (op : Except String Unit) :
      CBReachable cfg cb →
      CBReachable cfg (CircuitBreaker.executeStep cfg cb now op).1
  | reset {cb : CircuitBreaker} :
      CBReachable cfg cb → CBReachable cfg cb.reset

/-- The next state of the specification state machine: CLOSED counts
failures up to the threshold; OPEN fails fast inside the recovery window and
otherwise lets one trial call through, closing on success and re-opening on
failure; HALF_OPEN closes on success and re-opens on failure. -/
def specNextState (cfg : CBConfig) (cb : CircuitBreaker) (now : ℤ)
    (opOk : Bool) : CBState :=
  match cb.state with
  | .CLOSED =>
      if opOk then .CLOSED
      else if cfg.failureThreshold ≤ cb.failures + 1 then .OPEN else .CLOSED
  | .OPEN =>
      if cfg.recoveryTimeout < now - cb.lastFailureTime then
        (if opOk then .CLOSED else .OPEN)
      else .OPEN
  | .HALF_OPEN => if opOk then .CLOSED else .OPEN

/-- Whether an execute outcome reflects a successful operation. -/
def exceptOk (op : Except String Unit) : Bool :=
  match op with
  | .ok _ => true
  | .error _ => false

/-- The safety invariant of the breaker: away from CLOSED the failure count
has reached the threshold. -/
def CBInv (cfg : CBConfig) (cb : CircuitBreaker) : Prop :=
  (cb.state = .OPEN → cfg.failureThreshold ≤ cb.failures) ∧
  (cb.state = .HALF_OPEN → cfg.failureThreshold ≤ cb.failures)

/-- Number of failing calls in a call sequence. -/
def errCount (calls : List (ℤ × Except String Unit)) : ℕ :=
  (calls.filter fun c => !(exceptOk c.2)).length

/-- Concrete breaker states for the circuit-breaker witnesses. -/
def cbOpenState : CircuitBreaker :=
  { failures := 3, lastFailureTime := 1000, state := .OPEN }

/-! ## Cache manager (class CacheManager of the cache-manager source)

The three stores are modelled as functions from keys to optional entries.
localStorage holds cache entries under the key "cache_" + key; since that
prefixing is injective, the model keys the localStorage cache entries by the
cache key itself (`localStore`) and keeps the localStorage keys that do not
start with "cache_" in a separate component (`localOther`) that no cache
operation touches; key.slice(6) of the source recovers the cache key from
the prefixed localStorage key.  JSON serialisation of entries is assumed to
round-trip.  The hit/miss statistics counters and the approximate-size
bookkeeping of the source are not modelled; they influence no store and no
returned value.  JavaScript truthiness on the stored value type is an
explicit predicate `truthy`, and the browser/server environment test
(typeof window) is the boolean `isBrowser`. -/
structure TierConfig where
  enabled : Bool
  maxSize : ℕ
  defaultTTL : ℤ

structure PersistentTierConfig where
  enabled : Bool
  maxSize : ℕ
  defaultTTL : ℤ
  directory : String

structure CacheConfig where
  memory : TierConfig
  localTier : TierConfig
  persistent : PersistentTierConfig

/-- getDefaultConfig of the source: all three tiers enabled, with TTLs of
5 minutes, 1 hour and 24 hours. -/
def getDefaultConfig : CacheConfig where
  memory := { enabled := true, maxSize := 50, defaultTTL := 5 * 60 * 1000 }
  localTier := { enabled := true, maxSize := 200, defaultTTL := 60 * 60 * 1000 }
  persistent := { enabled := true, maxSize := 1000, defaultTTL := 24 * 60 * 60 * 1000, directory := "./data/cache" }

structure CacheMeta where
  source : String
  hitCount : Option ℕ
  lastAccessed : Option ℤ

/-- CacheEntry of the source. -/
structure CEntry (V : Type) where
  data : V
  timestamp : ℤ
  ttl : ℤ
  level : ℕ
  key : String
  metadata : Option CacheMeta

/-- The mutable stores of the cache manager. -/
structure CacheState (V : Type) where
  memoryCache : String → Option (CEntry V)
  localStore : String → Option (CEntry V)
  localOther : String → Option String
  fileStore : String → Option (CEntry V)

/-- Pointwise update of a keyed store. -/
def fupdate {A : Type} (f : String → Option A) (k : String) (v : Option A) :
    String → Option A :=
  fun k2 => if k2 = k then v else f k2

/-- getFromMemory of the source: miss on absence; on an expired entry delete
it and miss; otherwise refresh the access metadata and return the data. -/
def getFromMemory {V : Type} (now : ℤ) (key : String) (st : CacheState V) :
    Option V × CacheState V :=
  match st.memoryCache key with
  | none => (none, st)
  | some entry =>
    if entry.ttl < now - entry.timestamp then
      (none, { st with memoryCache := fupdate st.memoryCache key none })
    else
      let entry2 := { entry with metadata := (entry.metadata.map (fun m =>
        { m with lastAccessed := some now, hitCount := some (m.hitCount.getD 0 + 1) })) }
      (some entry2.data,
       { st with memoryCache := fupdate st.memoryCache key (some entry2) })

/-- getFromLocal of the source: only in the browser; an expired entry is
removed and misses. -/
def getFromLocal {V : Type} (isBrowser : Bool) (now : ℤ) (key : String)
    (st : CacheState V) : Option V × CacheState V :=
  if isBrowser then
    match st.localStore key with
    | none => (none, st)
    | some entry =>
      if entry.ttl < now - entry.timestamp then
        (none, { st with localStore := fupdate st.localStore key none })
      else
        (some entry.data, st)
  else
    (none, st)

/-- getFromPersistent of the source: only on the server; an expired entry is
unlinked and misses; a missing file is a miss, never an error. -/
def getFromPersistent {V : Type} (isBrowser : Bool) (now : ℤ) (key : String)
    (st : CacheState V) : Option V × CacheState V :=
  if isBrowser then
    (none, st)
  else
    match st.fileStore key with
    | none => (none, st)
    | some entry =>
      if entry.ttl < now - entry.timestamp then
        (none, { st with fileStore := fupdate st.fileStore key none })
      else
        (some entry.data, st)

/-- setInMemory of the source. -/
def setInMemory {V : Type} (now : ℤ) (key : String) (data : V) (ttl : ℤ)
    (st : CacheState V) : CacheState V :=
  { st with memoryCache := (fupdate st.memoryCache key
      (some { data := data, timestamp := now, ttl := ttl, level := 1,
              key := key,
              metadata := some { source := "memory", hitCount := some 0,
                                 lastAccessed := some now } })) }

/-- setInLocal of the source: a no-op on the server. -/
def setInLocal {V : Type} (isBrowser : Bool) (now : ℤ) (key : String)
    (data : V) (ttl : ℤ) (st : CacheState V) : CacheState V :=
  if isBrowser then
    { st with localStore := (fupdate st.localStore key
        (some { data := data, timestamp := now, ttl := ttl, level := 2,
                key := key,
                metadata := some { source := "local", hitCount := none,
                                   lastAccessed := none } })) }
  else
    st

/-- setInPersistent of the source: a no-op in the browser. -/
def setInPersistent {V : Type} (isBrowser : Bool) (now : ℤ) (key : String)
    (data : V) (ttl : ℤ) (st : CacheState V) : CacheState V :=
  if isBrowser then
    st
  else
    { st with fileStore := (fupdate st.fileStore key
        (some { data := data, timestamp := now, ttl := ttl, level := 3,
                key := key,
                metadata := some { source := "persistent", hitCount := none,
                                   lastAccessed := none } })) }

/-- Level-3 phase of get: on a truthy persistent hit, backfill memory and
localStorage with the tier defaults, then return. -/
def getPersistentPhase {V : Type} (cfg : CacheConfig) (truthy : V → Bool)
    (isBrowser : Bool) (now : ℤ) (key : String) (st : CacheState V) :
    Option V × CacheState V :=
  if cfg.persistent.enabled then
    match getFromPersistent isBrowser now key st with
    | (some v, st1) =>
      if truthy v then
        let st2 := setInMemory now key v cfg.memory.defaultTTL st1
        let st3 := setInLocal isBrowser now key v cfg.localTier.defaultTTL st2
        (some v, st3)
      else
        (none, st1)
    | (none, st1) => (none, st1)
  else
    (none, st)

/-- Level-2 phase of get: on a truthy localStorage hit, backfill memory,
then return; otherwise fall through to level 3. -/
def getLocalPhase {V : Type} (cfg : CacheConfig) (truthy : V → Bool)
    (isBrowser : Bool) (now : ℤ) (key : String) (st : CacheState V) :
    Option V × CacheState V :=
  if cfg.localTier.enabled then
    match getFromLocal isBrowser now key st with
    | (some v, st1) =>
      if truthy v then
        (some v, setInMemory now key v cfg.memory.defaultTTL st1)
      else
        getPersistentPhase cfg truthy isBrowser now key st1
    | (none, st1) => getPersistentPhase cfg truthy isBrowser now key st1
  else
    getPersistentPhase cfg truthy isBrowser now key st

/-- get of the source: the three-level fallback.  Each tier result passes
through the JavaScript truthiness test (if (result)), so a falsy stored
value falls through exactly as a miss does. -/
def CacheManager.get {V : Type} (cfg : CacheConfig) (truthy : V → Bool)
    (isBrowser : Bool) (now : ℤ) (key : String) (st : CacheState V) :
    Option V × CacheState V :=
  if cfg.memory.enabled then
    match getFromMemory now key st with
    | (some v, st1) =>
      if truthy v then (some v, st1)
      else getLocalPhase cfg truthy isBrowser now key st1
    | (none, st1) => getLocalPhase cfg truthy isBrowser now key st1
  else
    getLocalPhase cfg truthy isBrowser now key st

/-- The ttl argument of set is optional and goes through JavaScript
(ttl || default), under which a ttl of 0 falls back to the tier default. -/
def effTTL (ttlOpt : Option ℤ) (tierDefault : ℤ) : ℤ :=
  match ttlOpt with
  | some t => if t = 0 then tierDefault else t
  | none => tierDefault

/-- set of the source: write to every enabled tier. -/
def CacheManager.set {V : Type} (cfg : CacheConfig) (isBrowser : Bool)
    (now : ℤ) (key : String) (data : V) (ttlOpt : Option ℤ)
    (st : CacheState V) : CacheState V :=
  let st1 := if cfg.memory.enabled then
    setInMemory now key data (effTTL ttlOpt cfg.memory.defaultTTL) st else st
  let st2 := if cfg.localTier.enabled then
    setInLocal isBrowser now key data (effTTL ttlOpt cfg.localTier.defaultTTL)
      st1 else st1
  if cfg.persistent.enabled then
    setInPersistent isBrowser now key data
      (effTTL ttlOpt cfg.persistent.defaultTTL) st2
  else st2

/-- invalidate of the source: delete from the memory map, remove the
prefixed localStorage key in the browser, and leave the file cache to the
next cleanup pass (which never touches it). -/
def CacheManager.invalidate {V : Type} (isBrowser : Bool) (key : String)
    (st : CacheState V) : CacheState V :=
  let st1 := { st with memoryCache := fupdate st.memoryCache key none }
  if isBrowser then
    { st1 with localStore := fupdate st1.localStore key none }
  else
    st1

/-- invalidatePattern of the source.  The compiled regular expression is
modelled by its match predicate `matches`.  The memory scan deletes every
matching key; the localStorage scan (browser only) deletes every key that
starts with "cache_" and whose slice(6) matches, which in the model is
every matching cache key, and never touches the non-cache localStorage
keys; the file store is not visited at all. -/
def CacheManager.invalidatePattern {V : Type} (isBrowser : Bool)
    (rmatch : String → Bool) (st : CacheState V) : CacheState V :=
  { st with
    memoryCache := fun k => if rmatch k then none else st.memoryCache k
    localStore := fun k =>
      if isBrowser && rmatch k then none else st.localStore k }

/-- The empty cache state over rational values. -/
def cacheEmpty : CacheState ℚ :=
  ⟨fun _ => none, fun _ => none, fun _ => none, fun _ => none⟩

/-- JavaScript truthiness of a number: every number except 0 (NaN is outside
the model). -/
def truthyQ : ℚ → Bool :=
  fun q => !(q == 0)

/-! ## Range scraper (src/lib/scraper/dhlottery-scraper.ts, getDrawHistory)

The in-page extraction of one round page is modelled by its input: either
the navigation or evaluation throws (`pageError`, caught by the per-round
catch), or the page carries a list of parsed winning-number texts (the
values parseInt produced for the .num.win elements), a date string and a
bonus value.  An empty number-element list is the "no data for this round"
page. -/
/-- What fetching and evaluating the page of one round can yield. -/
inductive RoundPage
  | pageError
  | page (nums : List ℤ) (date : String) (bonus : ℤ)

/-- A history entry assembled by getDrawHistory (prize fields are all zero
in the source and are omitted here). -/
structure HistEntry where
  round : ℤ
  date : String
  numbers : List ℤ
  bonus : ℤ
  deriving DecidableEq

/-- The page.evaluate body for one round: null when no winning-number
element is present, otherwise the record with the positive parsed numbers
capped at six (numbers.slice(0, 6)). -/
def evaluateRound (r : ℤ) : RoundPage → Option HistEntry
  | .pageError => none
  | .page nums date bonus =>
    match nums with
    | [] => none
    | _ :: _ =>
      some { round := r, date := date,
             numbers := (nums.filter fun n => 0 < n).take 6, bonus := bonus }

/-- The body of the per-round loop with its try/catch: a thrown error and a
null evaluation are both skipped, and a record is kept only when exactly 6
numbers were extracted. -/
def fetchRound (pages : ℤ → RoundPage) (r : ℤ) : Option HistEntry :=
  match pages r with
  | .pageError => none
  | .page nums date bonus =>
    match evaluateRound r (.page nums date bonus) with
    | none => none
    | some d => if d.numbers.length = 6 then some d else none

/-- The ascending iteration sequence of the for loop
(round = startRound; round <= endRound; round++). -/
def roundIter (s e : ℤ) : List ℤ :=
  (List.range (e + 1 - s).toNat).map fun i : ℕ => s + (i : ℤ)

/-- getDrawHistory of the source: iterate the rounds in ascending order,
pushing each successfully extracted record and skipping the rest. -/
def getDrawHistory (pages : ℤ → RoundPage) (s e : ℤ) : List HistEntry :=
  (roundIter s e).foldl
    (fun acc r =>
      match fetchRound pages r with
      | some d => acc ++ [d]
      | none => acc)
    []

/-- Concrete page function for the scraper witness: round 2 throws, the
other rounds carry a full page. -/
def witnessPages : ℤ → RoundPage :=
  fun r => if r = 2 then .pageError
    else .page [5, 12, 19, 27, 33, 41] "2025-07-12" 7

/-- A fully valid concrete record for the validator witnesses. -/
def okPrize : PrizeObj :=
  ⟨some 1000000, some 5, some 50000, some 40, some 1500, some 900,
   some 50, some 40000, some 5, some 700000⟩

/-- A valid raw record. -/
def okRecord : RawResult :=
  ⟨some 1181, some "2025-07-12", some [3, 7, 15, 22, 38, 45], some 11,
   some okPrize⟩

/-- A record invalidated by a seventh number. -/
def badRecord : RawResult :=
  ⟨some 1180, some "2025-07-05", some [3, 7, 15, 22, 38, 45, 44], some 11,
   some okPrize⟩

/-! ## Theorems -/

theorem ratIsInt_iff (q : ℚ) : RatIsInt q ↔ q.den = 1 := by
  constructor
  · rintro ⟨z, rfl⟩
    exact Rat.den_intCast z
  · intro h
    exact ⟨q.num, ((Rat.den_eq_one_iff q).mp h).symm⟩

theorem isValidNumber_iff (q : ℚ) :
    isValidNumber q = true ↔ RatIsInt q ∧ 1 ≤ q ∧ q ≤ 45 := by
  simp [isValidNumber, ratIsInt_iff, and_assoc]

theorem isValidNumberArray_iff (ns : List ℚ) :
    isValidNumberArray ns = true ↔
      ns.length = 6 ∧ ns.Nodup ∧ ∀ n ∈ ns, RatIsInt n ∧ 1 ≤ n ∧ n ≤ 45 := by
  simp only [isValidNumberArray, Bool.and_eq_true, beq_iff_eq, List.all_eq_true,
    isValidNumber_iff]
  constructor
  · rintro ⟨⟨h6, hall⟩, hd⟩
    have hsub := List.dedup_sublist ns
    have : ns.dedup = ns := hsub.eq_of_length (by rw [hd, h6])
    exact ⟨h6, List.dedup_eq_self.mp this, hall⟩
  · rintro ⟨h6, hnd, hall⟩
    refine ⟨⟨h6, hall⟩, ?_⟩
    rw [List.dedup_eq_self.mpr hnd, h6]

theorem isValidDate_iff (s : String) : isValidDate s = true ↔ ClaimDateOk s := by
  unfold isValidDate ClaimDateOk
  cases h : jsDateFields s with
  | none => simp [h]
  | some t =>
    obtain ⟨gy, gm, gd⟩ := t
    simp only [h, Bool.and_eq_true, beq_iff_eq, Option.some.injEq]
    constructor
    · rintro ⟨hre, ⟨h1, h2⟩, h3⟩
      exact ⟨hre, gy, gm, gd, rfl, h1, h2, h3⟩
    · rintro ⟨hre, gy2, gm2, gd2, heq, h1, h2, h3⟩
      cases heq
      exact ⟨hre, ⟨h1, h2⟩, h3⟩

theorem isValidRound_iff (q : ℚ) :
    isValidRound q = true ↔ RatIsInt q ∧ 0 < q ∧ q < 10000 := by
  simp [isValidRound, ratIsInt_iff, and_assoc]

theorem prizeFieldOkB_iff (f : Option ℚ) :
    prizeFieldOkB f = true ↔ ∃ v, f = some v ∧ 0 ≤ v := by
  cases f <;> simp [prizeFieldOkB]

theorem isValidPrizeInfo_iff (p : Option PrizeObj) :
    isValidPrizeInfo p = true ↔ ∃ q, p = some q ∧ ClaimPrizeOk q := by
  cases p with
  | none => simp [isValidPrizeInfo]
  | some q =>
    simp [isValidPrizeInfo, ClaimPrizeOk, prizeFieldOkB_iff, and_assoc]

/-- Claim C1: for every candidate record, validateLotteryResult returns true
iff the round is a positive integer below 10000, the date matches YYYY-MM-DD
and round-trips through date parsing without field drift, the numbers field
holds exactly 6 distinct integers in [1, 45], the bonus is an integer in
[1, 45] absent from the numbers, and all ten prize fields are present,
numeric and non-negative. -/
theorem claim_C1_validate_iff (c : RawResult) :
    validateLotteryResult c = true ↔ ClaimC1Accepts c := by
  obtain ⟨ro, da, nu, bo, pr⟩ := c
  unfold validateLotteryResult ClaimC1Accepts
  cases ro with
  | none => simp
  | some r =>
    cases da with
    | none => simp
    | some s =>
      cases nu with
      | none => simp
      | some ns =>
        cases bo with
        | none => simp
        | some b =>
          simp only [Bool.and_eq_true, Bool.not_eq_true', isValidRound_iff,
            isValidDate_iff, isValidNumberArray_iff, isValidNumber_iff,
            isValidPrizeInfo_iff, Option.some.injEq]
          constructor
          · rintro ⟨⟨⟨⟨⟨hr, hd⟩, hn⟩, hb⟩, hc⟩, hp⟩
            refine ⟨⟨r, rfl, hr⟩, ⟨s, rfl, hd⟩, ⟨ns, rfl, hn⟩,
              ⟨b, ns, rfl, rfl, hb.1, hb.2.1, hb.2.2, ?_⟩, ?_⟩
            · intro hmem
              simp only [List.contains, List.elem_eq_mem,
                decide_eq_false_iff_not] at hc
              exact hc hmem
            · obtain ⟨q, hq, hcp⟩ := hp
              exact ⟨q, hq, hcp⟩
          · rintro ⟨⟨r2, hr2, hr⟩, ⟨s2, hs2, hd⟩, ⟨ns2, hns2, hn⟩,
              ⟨b2, ns3, hb2, hns3, hbi, hb1, hb45, hnm⟩, ⟨q, hq, hcp⟩⟩
            cases hr2; cases hs2; cases hns2; cases hb2; cases hns3
            refine ⟨⟨⟨⟨⟨hr, hd⟩, hn⟩, hbi, hb1, hb45⟩, ?_⟩, q, hq, hcp⟩
            simp only [List.contains, List.elem_eq_mem, decide_eq_false_iff_not]
            exact hnm


theorem dedupByRound_sublist (l : List RawResult) :
    List.Sublist (dedupByRound l) l := by
  have h1 : List.Sublist (l.enum.filter fun p =>
      l.findIdx (fun r2 => roundKey r2 == roundKey p.2) == p.1) l.enum :=
    List.filter_sublist _
  have h2 := h1.map Prod.snd
  rwa [List.enum_map_snd] at h2

theorem enum_nodup (l : List RawResult) : l.enum.Nodup :=
  List.Nodup.of_map Prod.fst (by
    rw [List.enum_map_fst]
    exact List.nodup_range _)

theorem mem_dedupByRound {l : List RawResult} {x : RawResult}
    (hx : x ∈ dedupByRound l) :
    ∃ i : ℕ, l[i]? = some x ∧
      l.findIdx (fun r2 => roundKey r2 == roundKey x) = i := by
  unfold dedupByRound at hx
  obtain ⟨⟨i, y⟩, hmem, hsnd⟩ := List.mem_map.mp hx
  obtain ⟨henum, hpred⟩ := List.mem_filter.mp hmem
  cases hsnd
  refine ⟨i, List.mk_mem_enum_iff_getElem?.mp henum, ?_⟩
  simpa using hpred

theorem dedupByRound_rounds_nodup (l : List RawResult) :
    ((dedupByRound l).map roundKey).Nodup := by
  unfold dedupByRound
  rw [List.map_map]
  apply List.Nodup.map_on
  · rintro ⟨i, x⟩ hx ⟨j, y⟩ hy hround
    obtain ⟨hxe, hxp⟩ := List.mem_filter.mp hx
    obtain ⟨hye, hyp⟩ := List.mem_filter.mp hy
    simp only [Function.comp, beq_iff_eq] at hxp hyp hround
    have hij : i = j := by
      rw [← hxp, ← hyp]
      congr 1
      funext r2
      rw [hround]
    subst hij
    have h1 := List.mk_mem_enum_iff_getElem?.mp hxe
    have h2 := List.mk_mem_enum_iff_getElem?.mp hye
    rw [h1] at h2
    cases h2
    rfl
  · exact (enum_nodup l).filter _

theorem dedupByRound_first_occ {l : List RawResult} {x : RawResult}
    (hx : x ∈ dedupByRound l) :
    ∃ (i : ℕ) (h : i < l.length), l.get ⟨i, h⟩ = x ∧
      ∀ (j : ℕ) (hj : j < i), roundKey (l.get ⟨j, hj.trans h⟩) ≠ roundKey x := by
  obtain ⟨i, hget, hfind⟩ := mem_dedupByRound hx
  have hlt : i < l.length := by
    by_contra hge
    rw [List.getElem?_eq_none (Nat.le_of_not_lt hge)] at hget
    exact Option.noConfusion hget
  refine ⟨i, hlt, ?_, ?_⟩
  · have h2 := List.getElem?_eq_getElem hlt
    rw [h2] at hget
    have h3 := Option.some.inj hget
    simpa [List.get_eq_getElem] using h3
  · intro j hj
    have hnp := @List.not_of_lt_findIdx RawResult
      (fun r2 => roundKey r2 == roundKey x) l j (hfind ▸ hj)
    simpa [List.get_eq_getElem] using hnp

theorem dedupByRound_eq_self {l : List RawResult}
    (hnd : (l.map roundKey).Nodup) : dedupByRound l = l := by
  unfold dedupByRound
  have hall : ∀ p ∈ l.enum,
      (l.findIdx (fun r2 => roundKey r2 == roundKey p.2) == p.1) = true := by
    rintro ⟨i, x⟩ henum
    have hget := List.mk_mem_enum_iff_getElem?.mp henum
    have hlt : i < l.length := by
      by_contra hge
      rw [List.getElem?_eq_none (Nat.le_of_not_lt hge)] at hget
      exact Option.noConfusion hget
    have hgx : l[i] = x := by
      have := List.getElem?_eq_getElem hlt
      rw [this] at hget
      exact Option.some.inj hget
    simp only [beq_iff_eq]
    rw [List.findIdx_eq hlt]
    constructor
    · simp [hgx]
    · intro j hji
      have hjl : j < l.length := hji.trans hlt
      have hmapnd := hnd
      have hne : roundKey l[j] ≠ roundKey l[i] := by
        intro heq
        have hmap : (l.map roundKey).get ⟨j, by simpa using hjl⟩ =
            (l.map roundKey).get ⟨i, by simpa using hlt⟩ := by
          simp [List.get_eq_getElem, heq]
        have hfin := (hmapnd.get_inj_iff).mp hmap
        have hji2 : j = i := by
          simpa using congrArg Fin.val hfin
        exact absurd hji2 (Nat.ne_of_lt hji)
      simp [hgx] at hne ⊢
      exact hne
  rw [List.filter_eq_self.mpr hall, List.enum_map_snd]

theorem validateAndCleanResults_eq (results : List RawResult) :
    validateAndCleanResults results = dedupByRound (sortedValid results) := rfl

theorem sortedValid_sorted (results : List RawResult) :
    (sortedValid results).Pairwise sortDescRel :=
  List.sorted_insertionSort sortDescRel _

theorem vc_pairwise (results : List RawResult) :
    (validateAndCleanResults results).Pairwise sortDescRel :=
  (sortedValid_sorted results).sublist (dedupByRound_sublist _)

theorem vc_rounds_nodup (results : List RawResult) :
    ((validateAndCleanResults results).map roundKey).Nodup :=
  dedupByRound_rounds_nodup _

theorem vc_length_le (results : List RawResult) :
    (validateAndCleanResults results).length ≤ results.length := by
  have h1 := (dedupByRound_sublist (sortedValid results)).length_le
  have h2 : (sortedValid results).length =
      (results.filter validateLotteryResult).length :=
    (List.perm_insertionSort sortDescRel _).length_eq
  calc (validateAndCleanResults results).length
      ≤ (sortedValid results).length := h1
    _ = (results.filter validateLotteryResult).length := h2
    _ ≤ results.length := List.length_filter_le _ _

theorem vc_mem_valid {results : List RawResult} {x : RawResult}
    (hx : x ∈ validateAndCleanResults results) :
    validateLotteryResult x = true := by
  have h1 : x ∈ sortedValid results :=
    (dedupByRound_sublist _).mem hx
  have h2 : x ∈ results.filter validateLotteryResult :=
    ((List.perm_insertionSort sortDescRel _).mem_iff).mp h1
  exact (List.mem_filter.mp h2).2

/-- Claim C7: validateAndCleanResults never lengthens its input, yields
pairwise-distinct rounds sorted in descending round order, and every kept
record is the first occurrence of its round in the newest-first sorted
sequence of valid records. -/
theorem claim_C7_clean_shape (xs : List RawResult) :
    (validateAndCleanResults xs).length ≤ xs.length ∧
    ((validateAndCleanResults xs).map roundKey).Nodup ∧
    (validateAndCleanResults xs).Pairwise sortDescRel ∧
    (∀ x ∈ validateAndCleanResults xs,
      ∃ (i : ℕ) (h : i < (sortedValid xs).length),
        (sortedValid xs).get ⟨i, h⟩ = x ∧
        ∀ (j : ℕ) (hj : j < i),
          roundKey ((sortedValid xs).get ⟨j, hj.trans h⟩) ≠ roundKey x) :=
  ⟨vc_length_le xs, vc_rounds_nodup xs, vc_pairwise xs,
    fun _ hx => dedupByRound_first_occ hx⟩

/-- Claim C8: validateAndCleanResults is idempotent. -/
theorem claim_C8_clean_idempotent (xs : List RawResult) :
    validateAndCleanResults (validateAndCleanResults xs) =
      validateAndCleanResults xs := by
  have hfilter : (validateAndCleanResults xs).filter validateLotteryResult =
      validateAndCleanResults xs :=
    List.filter_eq_self.mpr fun a ha => vc_mem_valid ha
  have hsorted : ((validateAndCleanResults xs).filter
      validateLotteryResult).insertionSort sortDescRel =
      validateAndCleanResults xs := by
    rw [hfilter]
    exact List.Sorted.insertionSort_eq (vc_pairwise xs)
  show dedupByRound (((validateAndCleanResults xs).filter
      validateLotteryResult).insertionSort sortDescRel) =
      validateAndCleanResults xs
  rw [hsorted]
  exact dedupByRound_eq_self (vc_rounds_nodup xs)


theorem retryLoop_ok_from {α : Type} (op : ℕ → Except String α)
    (config : RetryConfig) (N : ℕ) (v : α)
    (hmax : N ≤ config.maxAttempts)
    (hfail : ∀ i, 1 ≤ i → i < N →
      ∃ e, op i = .error e ∧ isRetryableError e config.retryableErrors = true)
    (hok : op N = .ok v) :
    ∀ k, 1 ≤ k → k ≤ N → ∀ le,
      retryLoop op config k le = (.ok v, N + 1 - k) := by
  suffices h : ∀ d k, 1 ≤ k → k ≤ N → N - k = d → ∀ le,
      retryLoop op config k le = (.ok v, N + 1 - k) by
    intro k hk1 hkN le
    exact h (N - k) k hk1 hkN rfl le
  intro d
  induction d with
  | zero =>
    intro k hk1 hkN hd le
    have hkN2 : k = N := by omega
    subst hkN2
    rw [retryLoop]
    have hnl : ¬ config.maxAttempts < k := by omega
    simp only [hnl, if_false, hok]
    have : k + 1 - k = 1 := by omega
    rw [this]
  | succ n ih =>
    intro k hk1 hkN hd le
    have hkN2 : k < N := by omega
    obtain ⟨e, he, hre⟩ := hfail k hk1 hkN2
    rw [retryLoop]
    have h1 : ¬ config.maxAttempts < k := by omega
    have h2 : (k == config.maxAttempts) = false := by
      simp only [beq_eq_false_iff_ne, ne_eq]
      omega
    simp only [h1, if_false, he, h2, hre, if_true]
    rw [ih (k + 1) (by omega) (by omega) (by omega)]
    simp only [Bool.false_eq_true, if_false, Prod.mk.injEq, true_and]
    omega

/-- Claim C5: an operation that fails with retryable errors on its first
N - 1 invocations and succeeds on the N-th, run under a config with
maxAttempts at least N, makes retryAsync return the success value after
exactly N invocations. -/
theorem claim_C5_retry_n_attempts {α : Type} (op : ℕ → Except String α)
    (config : RetryConfig) (N : ℕ) (v : α)
    (hN : 1 ≤ N) (hmax : N ≤ config.maxAttempts)
    (hfail : ∀ i, 1 ≤ i → i < N →
      ∃ e, op i = .error e ∧ isRetryableError e config.retryableErrors = true)
    (hok : op N = .ok v) :
    retryAsync op config = (.ok v, N) := by
  have h := retryLoop_ok_from op config N v hmax hfail hok 1 le_rfl hN none
  have h2 : N + 1 - 1 = N := by omega
  rw [retryAsync, h, h2]

theorem claim_C5_retry_n_attempts_witness :
    retryAsync witnessOp DEFAULT_RETRY_CONFIG = (.ok 42, 2) :=
  claim_C5_retry_n_attempts witnessOp DEFAULT_RETRY_CONFIG 2 42
    (by decide) (by decide)
    (by
      intro i hi1 hi2
      have : i = 1 := by omega
      subst this
      exact ⟨"Connection timeout while loading page", rfl, by decide⟩)
    rfl

/-- Claim C6: when the first invocation fails with an error whose message
matches no retryable pattern, retryAsync performs exactly one invocation and
propagates that error.  maxAttempts is at least 1, as in every config of the
source (3 and 5). -/
theorem claim_C6_nonretryable_propagates {α : Type} (op : ℕ → Except String α)
    (config : RetryConfig) (e : String)
    (hmax : 1 ≤ config.maxAttempts)
    (hfirst : op 1 = .error e)
    (hnr : isRetryableError e config.retryableErrors = false) :
    retryAsync op config = (.error e, 1) := by
  rw [retryAsync, retryLoop]
  have h1 : ¬ config.maxAttempts < 1 := by omega
  simp only [h1, if_false, hfirst, hnr]
  by_cases h2 : (1 == config.maxAttempts) = true
  · simp [h2]
  · simp only [Bool.not_eq_true] at h2
    simp [h2]

theorem claim_C6_nonretryable_witness :
    retryAsync witnessOpFatal DEFAULT_RETRY_CONFIG = (.error "malformed payload", 1) :=
  claim_C6_nonretryable_propagates witnessOpFatal DEFAULT_RETRY_CONFIG
    "malformed payload" (by decide) rfl (by decide)


theorem executeStep_preserves_inv (cfg : CBConfig) (cb : CircuitBreaker)
    (now : ℤ) (op : Except String Unit) (h : CBInv cfg cb) :
    CBInv cfg (CircuitBreaker.executeStep cfg cb now op).1 := by
  obtain ⟨ho, hh⟩ := h
  cases hcb : cb.state <;> cases op <;>
    simp only [CircuitBreaker.executeStep, CircuitBreaker.openGuard,
      CircuitBreaker.invoke, CBInv, hcb] <;>
    split_ifs <;>
    simp_all <;>
    first
      | omega
      | (intro h2
         omega)
      | (intro h2
         split at h2 <;> simp_all)

theorem reachable_inv {cfg : CBConfig} {cb : CircuitBreaker}
    (h : CBReachable cfg cb) : CBInv cfg cb := by
  induction h with
  | init =>
    constructor <;> intro habs <;>
      simp [CircuitBreaker.init] at habs
  | step now op _ ih => exact executeStep_preserves_inv cfg _ now op ih
  | reset _ _ =>
    constructor <;> intro habs <;>
      simp [CircuitBreaker.reset] at habs

theorem executeStep_closed_ok (cfg : CBConfig) (cb : CircuitBreaker)
    (now : ℤ) {α : Type} (v : α) (h : cb.state = .CLOSED) :
    CircuitBreaker.executeStep cfg cb now (.ok v) = (cb, .ok v, 1) := by
  simp [CircuitBreaker.executeStep, CircuitBreaker.openGuard,
    CircuitBreaker.invoke, h]

theorem executeStep_closed_err (cfg : CBConfig) (cb : CircuitBreaker)
    (now : ℤ) {α : Type} (e : String) (h : cb.state = .CLOSED) :
    CircuitBreaker.executeStep cfg cb now (.error e : Except String α) =
      ({ failures := cb.failures + 1
         lastFailureTime := now
         state := if cfg.failureThreshold ≤ cb.failures + 1 then .OPEN
           else .CLOSED },
       .opFailed e, 1) := by
  simp [CircuitBreaker.executeStep, CircuitBreaker.openGuard,
    CircuitBreaker.invoke, h]

theorem invoke_count (cfg : CBConfig) (cb1 : CircuitBreaker) (now : ℤ)
    {α : Type} (op : Except String α) :
    (CircuitBreaker.invoke cfg cb1 now op).2.2 = 1 := by
  cases op with
  | ok v =>
    by_cases h : cb1.state = .HALF_OPEN <;> simp [CircuitBreaker.invoke, h]
  | error e => rfl

theorem openGuard_elapsed (cfg : CBConfig) (cb : CircuitBreaker) (now : ℤ)
    (hst : cb.state = .OPEN)
    (ht : cfg.recoveryTimeout < now - cb.lastFailureTime) :
    CircuitBreaker.openGuard cfg cb now = some { cb with state := .HALF_OPEN } := by
  simp [CircuitBreaker.openGuard, hst, ht]

theorem run_stays_closed (cfg : CBConfig) :
    ∀ (calls : List (ℤ × Except String Unit)) (cb : CircuitBreaker),
      cb.state = .CLOSED →
      cb.failures + errCount calls < cfg.failureThreshold →
      (CircuitBreaker.run cfg cb calls).state = .CLOSED ∧
      (CircuitBreaker.run cfg cb calls).failures =
        cb.failures + errCount calls := by
  intro calls
  induction calls with
  | nil =>
    intro cb h1 _
    simp [CircuitBreaker.run, errCount, h1]
  | cons c rest ih =>
    intro cb h1 h2
    obtain ⟨t, op⟩ := c
    cases op with
    | ok v =>
      have hcnt : errCount ((t, Except.ok v) :: rest) = errCount rest := by
        simp [errCount, exceptOk]
      rw [hcnt] at h2 ⊢
      rw [CircuitBreaker.run, executeStep_closed_ok cfg cb t v h1]
      exact ih cb h1 h2
    | error e =>
      have hcnt : errCount ((t, Except.error e) :: rest) =
          errCount rest + 1 := by
        simp [errCount, exceptOk]
      rw [hcnt] at h2 ⊢
      rw [CircuitBreaker.run, executeStep_closed_err cfg cb t e h1]
      have hlt : ¬ cfg.failureThreshold ≤ cb.failures + 1 := by omega
      simp only [hlt, if_false]
      have hrec := ih ⟨cb.failures + 1, t, .CLOSED⟩ rfl
        (show cb.failures + 1 + errCount rest < cfg.failureThreshold by omega)
      obtain ⟨ha, hb⟩ := hrec
      refine ⟨ha, ?_⟩
      rw [hb]
      show cb.failures + 1 + errCount rest = cb.failures + (errCount rest + 1)
      omega

theorem executeStep_state_spec (cfg : CBConfig) (cb : CircuitBreaker)
    (now : ℤ) (op : Except String Unit) (hinv : CBInv cfg cb) :
    ((CircuitBreaker.executeStep cfg cb now op).1).state =
      specNextState cfg cb now (exceptOk op) := by
  obtain ⟨ho, hh⟩ := hinv
  by_cases hcb : cb.state = CBState.OPEN
  · by_cases ht : cfg.recoveryTimeout < now - cb.lastFailureTime
    · have hg := openGuard_elapsed cfg cb now hcb ht
      cases op with
      | ok v =>
        simp [CircuitBreaker.executeStep, hg, CircuitBreaker.invoke,
          specNextState, exceptOk, hcb, ht]
      | error e =>
        have hth : cfg.failureThreshold ≤ cb.failures + 1 :=
          Nat.le_succ_of_le (ho hcb)
        simp [CircuitBreaker.executeStep, hg, CircuitBreaker.invoke,
          specNextState, exceptOk, hcb, ht, hth]
    · have hg : CircuitBreaker.openGuard cfg cb now = none := by
        simp [CircuitBreaker.openGuard, hcb, ht]
      simp [CircuitBreaker.executeStep, hg, specNextState, hcb, ht]
  · have hg : CircuitBreaker.openGuard cfg cb now = some cb := by
      simp [CircuitBreaker.openGuard, hcb]
    cases op with
    | ok v =>
      by_cases hho : cb.state = CBState.HALF_OPEN
      · simp [CircuitBreaker.executeStep, hg, CircuitBreaker.invoke, hho,
          specNextState, exceptOk]
      · have hcl : cb.state = CBState.CLOSED := by
          cases hst : cb.state <;> simp_all
        simp [CircuitBreaker.executeStep, hg, CircuitBreaker.invoke, hho, hcl,
          specNextState, exceptOk]
    | error e =>
      by_cases hho : cb.state = CBState.HALF_OPEN
      · have hth : cfg.failureThreshold ≤ cb.failures + 1 :=
          Nat.le_succ_of_le (hh hho)
        simp [CircuitBreaker.executeStep, hg, CircuitBreaker.invoke, hho,
          specNextState, exceptOk, hth]
      · have hcl : cb.state = CBState.CLOSED := by
          cases hst : cb.state <;> simp_all
        simp [CircuitBreaker.executeStep, hg, CircuitBreaker.invoke, hcl,
          specNextState, exceptOk]

theorem run_opens_at_threshold (cfg : CBConfig)
    (calls : List (ℤ × Except String Unit)) (t : ℤ) (e : String)
    (h1 : 1 ≤ cfg.failureThreshold)
    (h2 : errCount calls = cfg.failureThreshold - 1) :
    (CircuitBreaker.run cfg CircuitBreaker.init
        (calls ++ [(t, .error e)])).state = .OPEN ∧
    (CircuitBreaker.run cfg CircuitBreaker.init
        (calls ++ [(t, .error e)])).failures = cfg.failureThreshold := by
  have hrunapp : ∀ (l1 l2 : List (ℤ × Except String Unit)) cb,
      CircuitBreaker.run cfg cb (l1 ++ l2) =
        CircuitBreaker.run cfg (CircuitBreaker.run cfg cb l1) l2 := by
    intro l1
    induction l1 with
    | nil => intro l2 cb; rfl
    | cons c rest ih =>
      intro l2 cb
      rw [List.cons_append, CircuitBreaker.run, CircuitBreaker.run, ih]
  have hclosed := run_stays_closed cfg calls CircuitBreaker.init rfl
    (by simp [CircuitBreaker.init]; omega)
  obtain ⟨ha, hb⟩ := hclosed
  rw [hrunapp]
  set mid := CircuitBreaker.run cfg CircuitBreaker.init calls with hmid
  have hmidf : mid.failures = cfg.failureThreshold - 1 := by
    rw [hb]
    simp [CircuitBreaker.init, h2]
  rw [show CircuitBreaker.run cfg mid [(t, .error e)] =
      (CircuitBreaker.executeStep cfg mid t
        (.error e : Except String Unit)).1 from rfl,
    executeStep_closed_err cfg mid t e ha]
  have hth : cfg.failureThreshold ≤ mid.failures + 1 := by omega
  refine ⟨?_, ?_⟩
  · show (if cfg.failureThreshold ≤ mid.failures + 1 then CBState.OPEN
      else CBState.CLOSED) = CBState.OPEN
    simp [hth]
  · show mid.failures + 1 = cfg.failureThreshold
    omega

/-- Claim C2: the breaker realises the three-state machine of the
specification.  In order of the conjuncts: a fresh breaker is CLOSED with
failure count 0; failureThreshold consecutive failed calls leave the breaker
OPEN with the count at the threshold; a call inside the recovery window of
an OPEN breaker fails fast with the circuit-open outcome, no invocation, and
no state change; a call after the recovery window behaves exactly as the
same call on the breaker moved to HALF_OPEN, with exactly one invocation; a
success entered in HALF_OPEN closes the breaker and clears the count; a
failure entered in HALF_OPEN (whose count has reached the threshold, as on
every reachable HALF_OPEN entry) re-opens the breaker and refreshes the
failure instant; every reachable OPEN or HALF_OPEN state carries a count at
the threshold; and on every state satisfying that invariant the post-state
of execute is exactly the one prescribed by the specification machine, so no
other transition occurs. -/
theorem claim_C2_breaker_machine (cfg : CBConfig) :
    (CircuitBreaker.init.state = .CLOSED ∧ CircuitBreaker.init.failures = 0) ∧
    (∀ (fails : List (ℤ × Except String Unit)) (t : ℤ) (e : String),
      1 ≤ cfg.failureThreshold →
      fails.length + 1 = cfg.failureThreshold →
      (∀ c ∈ fails, exceptOk c.2 = false) →
      (CircuitBreaker.run cfg CircuitBreaker.init
          (fails ++ [(t, .error e)])).state = .OPEN ∧
      (CircuitBreaker.run cfg CircuitBreaker.init
          (fails ++ [(t, .error e)])).failures = cfg.failureThreshold) ∧
    (∀ (cb : CircuitBreaker) (now : ℤ) (op : Except String Unit),
      cb.state = .OPEN → now - cb.lastFailureTime ≤ cfg.recoveryTimeout →
      CircuitBreaker.executeStep cfg cb now op = (cb, .circuitOpen, 0)) ∧
    (∀ (cb : CircuitBreaker) (now : ℤ) (op : Except String Unit),
      cb.state = .OPEN → cfg.recoveryTimeout < now - cb.lastFailureTime →
      CircuitBreaker.executeStep cfg cb now op =
        CircuitBreaker.executeStep cfg { cb with state := .HALF_OPEN } now op ∧
      (CircuitBreaker.executeStep cfg cb now op).2.2 = 1) ∧
    (∀ (cb : CircuitBreaker) (now : ℤ) (v : Unit),
      cb.state = .HALF_OPEN →
      CircuitBreaker.executeStep cfg cb now (.ok v) =
        ({ cb with state := .CLOSED, failures := 0 }, .ok v, 1)) ∧
    (∀ (cb : CircuitBreaker) (now : ℤ) (e : String),
      cb.state = .HALF_OPEN → cfg.failureThreshold ≤ cb.failures + 1 →
      CircuitBreaker.executeStep cfg cb now (.error e : Except String Unit) =
        ({ failures := cb.failures + 1, lastFailureTime := now,
           state := .OPEN }, .opFailed e, 1)) ∧
    (∀ cb : CircuitBreaker, CBReachable cfg cb →
      (cb.state = .OPEN ∨ cb.state = .HALF_OPEN) →
      cfg.failureThreshold ≤ cb.failures) ∧
    (∀ (cb : CircuitBreaker) (now : ℤ) (op : Except String Unit),
      CBInv cfg cb →
      ((CircuitBreaker.executeStep cfg cb now op).1).state =
        specNextState cfg cb now (exceptOk op)) := by
  refine ⟨⟨rfl, rfl⟩, ?_, ?_, ?_, ?_, ?_, ?_, ?_⟩
  · intro fails t e h1 h2 hall
    have hcnt : errCount fails = fails.length := by
      unfold errCount
      rw [List.filter_eq_self.mpr]
      intro c hc
      simp [hall c hc]
    exact run_opens_at_threshold cfg fails t e h1 (by omega)
  · intro cb now op hst htime
    have hnl : ¬ cfg.recoveryTimeout < now - cb.lastFailureTime := by omega
    simp [CircuitBreaker.executeStep, CircuitBreaker.openGuard, hst, hnl]
  · intro cb now op hst htime
    have hg1 := openGuard_elapsed cfg cb now hst htime
    have hg2 : CircuitBreaker.openGuard cfg
        { cb with state := CBState.HALF_OPEN } now =
        some { cb with state := CBState.HALF_OPEN } := by
      simp [CircuitBreaker.openGuard]
    constructor
    · simp only [CircuitBreaker.executeStep, hg1, hg2]
    · simp only [CircuitBreaker.executeStep, hg1]
      exact invoke_count cfg _ now op
  · intro cb now v hst
    simp [CircuitBreaker.executeStep, CircuitBreaker.openGuard,
      CircuitBreaker.invoke, hst]
  · intro cb now e hst hth
    simp [CircuitBreaker.executeStep, CircuitBreaker.openGuard,
      CircuitBreaker.invoke, hst, hth]
  · intro cb hr hst
    obtain ⟨ho, hh⟩ := reachable_inv hr
    cases hst with
    | inl h => exact ho h
    | inr h => exact hh h
  · intro cb now op hinv
    exact executeStep_state_spec cfg cb now op hinv

theorem claim_C2_breaker_machine_witness :
    CircuitBreaker.executeStep scrapingCBConfig cbOpenState 2000
        (.ok () : Except String Unit) =
      (cbOpenState, .circuitOpen, 0) :=
  (claim_C2_breaker_machine scrapingCBConfig).2.2.1 cbOpenState 2000
    (.ok ()) rfl (by decide)

/-- Claim C10: a success while CLOSED leaves the whole breaker state, in
particular the failure count, unchanged; any interleaving of successes and
fewer than failureThreshold failures keeps the breaker CLOSED with the count
equal to the number of failures seen; and one further failure after
failureThreshold - 1 accumulated (not necessarily consecutive) failures
opens the breaker. -/
theorem claim_C10_failures_accumulate (cfg : CBConfig) :
    (∀ (cb : CircuitBreaker) (now : ℤ) (v : Unit),
      cb.state = .CLOSED →
      CircuitBreaker.executeStep cfg cb now (.ok v) = (cb, .ok v, 1)) ∧
    (∀ calls : List (ℤ × Except String Unit),
      errCount calls < cfg.failureThreshold →
      (CircuitBreaker.run cfg CircuitBreaker.init calls).state = .CLOSED ∧
      (CircuitBreaker.run cfg CircuitBreaker.init calls).failures =
        errCount calls) ∧
    (∀ (calls : List (ℤ × Except String Unit)) (t : ℤ) (e : String),
      1 ≤ cfg.failureThreshold →
      errCount calls = cfg.failureThreshold - 1 →
      (CircuitBreaker.run cfg CircuitBreaker.init
          (calls ++ [(t, .error e)])).state = .OPEN) := by
  refine ⟨?_, ?_, ?_⟩
  · intro cb now v h
    exact executeStep_closed_ok cfg cb now v h
  · intro calls hlt
    have := run_stays_closed cfg calls CircuitBreaker.init rfl
      (by simp [CircuitBreaker.init]; omega)
    simpa [CircuitBreaker.init] using this
  · intro calls t e h1 h2
    exact (run_opens_at_threshold cfg calls t e h1 h2).1


theorem fupdate_same {A : Type} (f : String → Option A) (k : String)
    (v : Option A) : fupdate f k v k = v := by
  simp [fupdate]

theorem fupdate_other {A : Type} (f : String → Option A) (k k2 : String)
    (v : Option A) (h : k2 ≠ k) : fupdate f k v k2 = f k2 := by
  simp [fupdate, h]

/-- Claim C4 as stated is false: the tier checks of get use JavaScript
truthiness on the stored value, so a falsy value (here the number 0) stored
with a positive ttl is treated as a miss by every tier and get returns null
immediately after set. -/
theorem claim_C4_counterexample :
    (CacheManager.get getDefaultConfig truthyQ false 0 "k"
      (CacheManager.set getDefaultConfig false 0 "k" (0 : ℚ) (some 1000)
        cacheEmpty)).1 = none := by
  decide

/-- Claim C4, amended to truthy values: for every truthy value v and
positive ttl, set followed by an immediate get returns v, and a get more
than ttl after the set returns null, in either environment and from any
prior state. -/
theorem claim_C4_set_get_ttl {V : Type} (truthy : V → Bool)
    (isBrowser : Bool) (now : ℤ) (key : String) (v : V) (ttl : ℤ)
    (st : CacheState V) (httl : 0 < ttl) (htr : truthy v = true) :
    (CacheManager.get getDefaultConfig truthy isBrowser now key
      (CacheManager.set getDefaultConfig isBrowser now key v (some ttl) st)).1
      = some v ∧
    ∀ now2 : ℤ, now + ttl < now2 →
      (CacheManager.get getDefaultConfig truthy isBrowser now2 key
        (CacheManager.set getDefaultConfig isBrowser now key v (some ttl)
          st)).1 = none := by
  have httl0 : ¬ (ttl = 0) := by omega
  have hfresh : ¬ ttl < now - now := by omega
  have hfresh2 : ¬ ttl < 0 := by omega
  constructor
  · cases isBrowser <;>
      simp [CacheManager.set, CacheManager.get, getDefaultConfig, effTTL,
        httl0, setInMemory, setInLocal, setInPersistent, getFromMemory,
        fupdate, hfresh, hfresh2, htr]
  · intro now2 h2
    have hexp : ttl < now2 - now := by omega
    cases isBrowser <;>
      simp [CacheManager.set, CacheManager.get, getLocalPhase,
        getPersistentPhase, getDefaultConfig, effTTL, httl0, setInMemory,
        setInLocal, setInPersistent, getFromMemory, getFromLocal,
        getFromPersistent, fupdate, hexp]

theorem claim_C4_set_get_ttl_witness :
    (CacheManager.get getDefaultConfig truthyQ false 0 "k"
      (CacheManager.set getDefaultConfig false 0 "k" (7 : ℚ) (some 1000)
        cacheEmpty)).1 = some 7 ∧
    (CacheManager.get getDefaultConfig truthyQ false 2000 "k"
      (CacheManager.set getDefaultConfig false 0 "k" (7 : ℚ) (some 1000)
        cacheEmpty)).1 = none := by
  have h := claim_C4_set_get_ttl truthyQ false 0 "k" (7 : ℚ) 1000 cacheEmpty
    (by decide) (by decide)
  exact ⟨h.1, h.2 2000 (by decide)⟩

/-- Claim C3 as stated is false: invalidatePattern never visits the
persistent tier, so on the server the entry survives there and a subsequent
get resurrects it (here the value 7 under a key the pattern matches). -/
theorem claim_C3_counterexample :
    (CacheManager.get getDefaultConfig truthyQ false 0 "lottery:latest"
      (CacheManager.invalidatePattern false (fun k => k == "lottery:latest")
        (CacheManager.set getDefaultConfig false 0 "lottery:latest" (7 : ℚ)
          (some 1000) cacheEmpty))).1 = some 7 ∧
    ((CacheManager.invalidatePattern false (fun k => k == "lottery:latest")
        (CacheManager.set getDefaultConfig false 0 "lottery:latest" (7 : ℚ)
          (some 1000) cacheEmpty)).fileStore "lottery:latest").isSome
      = true := by
  constructor <;> decide

/-- Claim C3, amended: invalidatePattern removes every matching key and no
non-matching key from the in-process tier, removes every matching cache key
and no other localStorage key in the browser, leaves localStorage fully
untouched on the server, and never touches the persistent tier; hence after
a browser-side invalidation a get of a matching key misses, while on the
server the persistent copy can still be returned. -/
theorem claim_C3_invalidate_pattern {V : Type} (isBrowser : Bool)
    (rmatch : String → Bool) (st : CacheState V) :
    (∀ k, rmatch k = true →
      (CacheManager.invalidatePattern isBrowser rmatch st).memoryCache k
        = none) ∧
    (∀ k, rmatch k = false →
      (CacheManager.invalidatePattern isBrowser rmatch st).memoryCache k
        = st.memoryCache k) ∧
    (∀ k, isBrowser = true → rmatch k = true →
      (CacheManager.invalidatePattern isBrowser rmatch st).localStore k
        = none) ∧
    (∀ k, rmatch k = false →
      (CacheManager.invalidatePattern isBrowser rmatch st).localStore k
        = st.localStore k) ∧
    (isBrowser = false →
      (CacheManager.invalidatePattern isBrowser rmatch st).localStore
        = st.localStore) ∧
    ((CacheManager.invalidatePattern isBrowser rmatch st).localOther
      = st.localOther) ∧
    ((CacheManager.invalidatePattern isBrowser rmatch st).fileStore
      = st.fileStore) ∧
    (∀ (truthy : V → Bool) (now : ℤ) (k : String), rmatch k = true →
      (CacheManager.get getDefaultConfig truthy true now k
        (CacheManager.invalidatePattern true rmatch st)).1 = none) := by
  refine ⟨?_, ?_, ?_, ?_, ?_, rfl, rfl, ?_⟩
  · intro k hk
    simp [CacheManager.invalidatePattern, hk]
  · intro k hk
    simp [CacheManager.invalidatePattern, hk]
  · intro k hb hk
    simp [CacheManager.invalidatePattern, hb, hk]
  · intro k hk
    simp [CacheManager.invalidatePattern, hk]
  · intro hb
    simp [CacheManager.invalidatePattern, hb]
  · intro truthy now k hk
    simp [CacheManager.invalidatePattern, CacheManager.get, getLocalPhase,
      getPersistentPhase, getFromMemory, getFromLocal, getFromPersistent,
      getDefaultConfig, hk]

theorem claim_C3_invalidate_pattern_witness :
    (CacheManager.invalidatePattern true (fun k => k == "lottery:latest")
      (CacheManager.set getDefaultConfig true 0 "lottery:latest" (7 : ℚ)
        (some 1000) cacheEmpty)).memoryCache "lottery:latest" = none :=
  (claim_C3_invalidate_pattern true (fun k => k == "lottery:latest")
      (CacheManager.set getDefaultConfig true 0 "lottery:latest" (7 : ℚ)
        (some 1000) cacheEmpty)).1 "lottery:latest" (by decide)

theorem claim_C10_failures_accumulate_witness :
    (CircuitBreaker.run scrapingCBConfig CircuitBreaker.init
        [(0, .ok ()), (10, .error "timeout"), (20, .ok ()),
         (30, .error "timeout")]).state = .CLOSED ∧
    (CircuitBreaker.run scrapingCBConfig CircuitBreaker.init
        [(0, .ok ()), (10, .error "timeout"), (20, .ok ()),
         (30, .error "timeout")]).failures = 2 :=
  (claim_C10_failures_accumulate scrapingCBConfig).2.1
    [(0, .ok ()), (10, .error "timeout"), (20, .ok ()),
     (30, .error "timeout")] (by decide)


theorem getDrawHistory_eq_filterMap (pages : ℤ → RoundPage) (s e : ℤ) :
    getDrawHistory pages s e = (roundIter s e).filterMap (fetchRound pages) := by
  unfold getDrawHistory
  suffices h : ∀ (l : List ℤ) (acc : List HistEntry),
      l.foldl (fun acc r =>
        match fetchRound pages r with
        | some d => acc ++ [d]
        | none => acc) acc = acc ++ l.filterMap (fetchRound pages) by
    simpa using h (roundIter s e) []
  intro l
  induction l with
  | nil => intro acc; simp
  | cons r rest ih =>
    intro acc
    cases hr : fetchRound pages r <;>
      simp [List.foldl_cons, hr, ih]

theorem fetchRound_round {pages : ℤ → RoundPage} {r : ℤ} {d : HistEntry}
    (h : fetchRound pages r = some d) : d.round = r := by
  unfold fetchRound at h
  cases hp : pages r with
  | pageError => rw [hp] at h; exact Option.noConfusion h
  | page nums date bonus =>
    rw [hp] at h
    cases nums with
    | nil => simp [evaluateRound] at h
    | cons a t =>
      simp only [evaluateRound] at h
      split at h
      · cases h
        rfl
      · exact Option.noConfusion h

theorem roundIter_mem {s e r : ℤ} (h : r ∈ roundIter s e) :
    s ≤ r ∧ r ≤ e := by
  unfold roundIter at h
  obtain ⟨i, hi, rfl⟩ := List.mem_map.mp h
  have hlt := List.mem_range.mp hi
  omega

theorem roundIter_pairwise (s e : ℤ) : (roundIter s e).Pairwise (· < ·) := by
  unfold roundIter
  refine List.pairwise_map.mpr ?_
  have h := List.pairwise_lt_range (e + 1 - s).toNat
  exact h.imp (by omega)

theorem mem_roundIter {s e r : ℤ} (h1 : s ≤ r) (h2 : r ≤ e) :
    r ∈ roundIter s e := by
  unfold roundIter
  refine List.mem_map.mpr ⟨(r - s).toNat, ?_, by omega⟩
  refine List.mem_range.mpr ?_
  omega

/-- Claim C9: a per-round failure (thrown navigation or evaluation error, a
page with no winning-number elements, or fewer than six extracted numbers)
is skipped without aborting the batch; every returned entry has its round in
[startRound, endRound]; the rounds of the result are strictly ascending; and
every round of the range whose page does extract a full record is present in
the result, whatever happens on the other rounds. -/
theorem claim_C9_history_skips_and_orders (pages : ℤ → RoundPage)
    (s e : ℤ) :
    (∀ d ∈ getDrawHistory pages s e, s ≤ d.round ∧ d.round ≤ e) ∧
    ((getDrawHistory pages s e).map HistEntry.round).Pairwise (· < ·) ∧
    (∀ r, s ≤ r → r ≤ e → ∀ d, fetchRound pages r = some d →
      d ∈ getDrawHistory pages s e) ∧
    (∀ r, s ≤ r → r ≤ e → fetchRound pages r = none →
      ∀ d ∈ getDrawHistory pages s e, d.round ≠ r) := by
  refine ⟨?_, ?_, ?_, ?_⟩
  · intro d hd
    rw [getDrawHistory_eq_filterMap] at hd
    obtain ⟨r, hr, hfr⟩ := List.mem_filterMap.mp hd
    have := fetchRound_round hfr
    subst this
    exact roundIter_mem hr
  · rw [getDrawHistory_eq_filterMap, List.map_filterMap]
    refine List.pairwise_filterMap.mpr ?_
    refine (roundIter_pairwise s e).imp ?_
    intro a b hab x hx y hy
    obtain ⟨dx, hdx, hdx2⟩ := Option.map_eq_some.mp (Option.mem_def.mp hx)
    obtain ⟨dy, hdy, hdy2⟩ := Option.map_eq_some.mp (Option.mem_def.mp hy)
    rw [← hdx2, ← hdy2, fetchRound_round hdx, fetchRound_round hdy]
    exact hab
  · intro r h1 h2 d hd
    rw [getDrawHistory_eq_filterMap]
    exact List.mem_filterMap.mpr ⟨r, mem_roundIter h1 h2, hd⟩
  · intro r h1 h2 hnone d hd hround
    rw [getDrawHistory_eq_filterMap] at hd
    obtain ⟨r2, hr2, hfr2⟩ := List.mem_filterMap.mp hd
    have := fetchRound_round hfr2
    rw [this] at hround
    subst hround
    rw [hnone] at hfr2
    exact Option.noConfusion hfr2

theorem claim_C9_history_witness :
    ({ round := 3, date := "2025-07-12", numbers := [5, 12, 19, 27, 33, 41],
       bonus := 7 } : HistEntry) ∈ getDrawHistory witnessPages 1 3 :=
  (claim_C9_history_skips_and_orders witnessPages 1 3).2.2.1 3
    (by decide) (by decide) _ (by decide)

theorem claim_C1_validate_iff_witness : ClaimC1Accepts okRecord :=
  (claim_C1_validate_iff okRecord).mp (by decide)

theorem claim_C7_clean_shape_witness :
    (validateAndCleanResults [badRecord, okRecord, okRecord]).length ≤
      ([badRecord, okRecord, okRecord] : List RawResult).length :=
  (claim_C7_clean_shape [badRecord, okRecord, okRecord]).1

end LottoPipeline
